import Mathlib

/-!
Verification development for the transit scheduling engine
(`apps/schedule_app.py`, `apps/node.py`).

The Python code is shallowly embedded: every table row is a list/tuple of
strings, timestamps are "HH:MM:SS" strings, times are propagated in seconds,
and Python's fallible operations (`int(...)` on a string, `list.index`,
dictionary lookup, `strptime`) are modelled with `Option`.  Machine-level
detail that Python does not have (fixed-width overflow) does not occur:
Python integers are unbounded, so `Nat`/`Int` are used directly.
-/

/-! ## Time rendering and parsing

Python renders times with `str(datetime.time(...))`, which prints
`HH:MM:SS` with each field zero-padded to two digits, and parses them with
`datetime.strptime(s, "%H:%M:%S")`.  Both are modelled character by
character on the canonical zero-padded form (the only form the program
ever produces). -/

/-- The decimal digit character for `n < 10` (as printed by Python). -/
def digitChar : Nat → Char
  | 0 => '0' | 1 => '1' | 2 => '2' | 3 => '3' | 4 => '4'
  | 5 => '5' | 6 => '6' | 7 => '7' | 8 => '8' | _ => '9'

/-- Numeric value of a decimal digit character, `none` on a non-digit. -/
def digitVal (c : Char) : Option Nat :=
  if '0' ≤ c ∧ c ≤ '9' then some (c.toNat - 48) else none

/-- Two-digit zero-padded rendering of `n < 100`, as Python's `%02d`. -/
def pad2 (n : Nat) : List Char := [digitChar (n / 10), digitChar (n % 10)]

/-- The characters of `str(datetime.time(...))` for a time given in seconds
within the day (`secs < 86400`): `HH:MM:SS`. -/
def timeChars (secs : Nat) : List Char :=
  pad2 (secs / 3600) ++ [':'] ++ pad2 (secs % 3600 / 60) ++ [':'] ++ pad2 (secs % 60)

/-- `str(trip_time.time())` of `schedule_app.py`: seconds within the day
rendered as an `HH:MM:SS` string. -/
def timeStr (secs : Nat) : String := String.mk (timeChars secs)

/-- `datetime.strptime(s, "%H:%M:%S")` reduced to the seconds within the day,
modelled on the canonical zero-padded character shape produced by `timeStr`
(the shape the program itself always feeds it); `none` where `strptime`
would raise `ValueError`. -/
def parseTimeChars : List Char → Option Nat
  | [h1, h2, c1, m1, m2, c2, s1, s2] =>
    if c1 = ':' ∧ c2 = ':' then
      match digitVal h1, digitVal h2, digitVal m1, digitVal m2, digitVal s1, digitVal s2 with
      | some a, some b, some c, some d, some e, some f =>
        if a * 10 + b < 24 ∧ c * 10 + d < 60 ∧ e * 10 + f < 60 then
          some ((a * 10 + b) * 3600 + (c * 10 + d) * 60 + (e * 10 + f))
        else none
      | _, _, _, _, _, _ => none
    else none
  | _ => none

/-- String-level wrapper of `parseTimeChars`. -/
def parseTimeStr (s : String) : Option Nat := parseTimeChars s.data

/-- Digit-sequence value for Python's `int`: `none` on an empty sequence
or any non-digit character. -/
def pyNatChars : List Char → Option Nat
  | [] => none
  | l => l.foldl (fun acc c => match acc, digitVal c with
      | some a, some d => some (a * 10 + d)
      | _, _ => none) (some 0)

/-- Python's `int(s)` on a canonical decimal numeral (optional leading minus
sign, then digits); `none` where Python raises `ValueError`. -/
def pyIntChars : List Char → Option Int
  | [] => none
  | '-' :: rest =>
    match pyNatChars rest with
    | some n => some (-(n : Int))
    | none => none
  | l =>
    match pyNatChars l with
    | some n => some (n : Int)
    | none => none

/-- Python's `int(s)` for a string. -/
def pyInt (s : String) : Option Int := pyIntChars s.data

/-- Python's `"%04d" % n`: zero-padded to four digits, full decimal form
beyond 9999 (never reached: at most 24·60 trips are numbered). -/
def pad4 (n : Nat) : String :=
  if n < 10000 then
    String.mk [digitChar (n / 1000), digitChar (n / 100 % 10),
               digitChar (n / 10 % 10), digitChar (n % 10)]
  else toString n

/-! ## Frequency expansion (`calculateFrequencyMinutes`, lines 222-243)

The Python loop `while current_min < 60: append; current_min += frequency`
runs at most 60 iterations whenever `1 ≤ frequency` (each step strictly
increases `current_min` towards the bound 60), so it is embedded with a
fuel of 60; the fuel is provably never exhausted on the guarded branch. -/

/-- The `while current_min < 60` loop of `calculateFrequencyMinutes`,
with explicit fuel. -/
def freqLoopFuel : Nat → Nat → Nat → List Nat
  | 0, _, _ => []
  | fuel + 1, frequency, current =>
    if current < 60 then current :: freqLoopFuel fuel frequency (current + frequency)
    else []

/-- `Schedule_Algorithm.calculateFrequencyMinutes(frequency, shift_min)`:
`None` when the frequency is outside `[1, 60]`, otherwise the minutes of
the hour spaced by `frequency` starting at `shift_min`. -/
def calculateFrequencyMinutes (frequency : Int) (shift_min : Nat) : Option (List Nat) :=
  if frequency > 60 ∨ frequency < 1 then none
  else some (freqLoopFuel 60 frequency.toNat shift_min)

/-! ## Route table and `arrangeRoutes` (lines 34-55)

A raw route-table row (`RoutePoint`) is indexed positionally in the code:
`route_point[0]` is the route id, `route_point[4]` the stop id and
`route_point[5]` the travel time (seconds, as a string) from the previous
stop.  The priority table (after its header row is deleted) is a list of
`(route id, rank)` rows; the code always reads the rank cell through
`int(...)`, so the rank cell is modelled as the integer it encodes. -/

structure RoutePoint where
  col0 : String
  col1 : String
  col2 : String
  col3 : String
  col4 : String
  col5 : String
deriving DecidableEq, Repr

/-- The list comprehension of `arrangeRoutes` (line 43-44):
`[[rp[4], rp[5]] for rp in routes if rp[0] == rid and rp[4] != ""]`. -/
def routeStopsFor (routes : List RoutePoint) (rid : String) : List (String × String) :=
  (routes.filter (fun rp => rp.col0 == rid && rp.col4 != "")).map (fun rp => (rp.col4, rp.col5))

/-- The stop-list construction as the specification describes it
(refinement reference, NOT the code): keep exactly the rows whose
travel-time field (index 5) is non-blank. -/
def routeStopsSpecC1 (routes : List RoutePoint) (rid : String) : List (String × String) :=
  (routes.filter (fun rp => rp.col0 == rid && rp.col5 != "")).map (fun rp => (rp.col4, rp.col5))

/-- Python's `min(list)` over a non-empty list of integers (the default
value for `[]` is never reached: the code only calls it on a non-empty
list, where Python would raise `ValueError`). -/
def listMin : List Int → Int
  | [] => 0
  | [x] => x
  | x :: y :: t => min x (listMin (y :: t))

/-- Python's `list.index(v)` for `v ∈ l`: index of the first occurrence
(the out-of-list default is never reached on the code's call sites). -/
def listIndexOf (v : Int) : List Int → Nat
  | [] => 0
  | x :: xs => if x = v then 0 else listIndexOf v xs + 1

/-- The selection loop of `arrangeRoutes` (lines 52-55): repeatedly take
the first index holding the minimum remaining rank, emit that row's route
id, and overwrite the slot with the sentinel rank 20. -/
def selectLoop (pr : List (String × Int)) : Nat → List Int → List String
  | 0, _ => []
  | n + 1, loopl =>
    let mn := listMin loopl
    let i := listIndexOf mn loopl
    (pr.getD i ("", 0)).1 :: selectLoop pr n (loopl.set i 20)

/-- `routes_order` as built by `arrangeRoutes` from the (header-stripped)
priority table. -/
def routesOrder (pr : List (String × Int)) : List String :=
  selectLoop pr pr.length (pr.map (fun p => p.2))

/-- `Schedule_Algorithm.arrangeRoutes`: deletes the priority header row,
builds the per-route stop lists (`routes_stops`, returned as an
association list in priority-table order) and the prioritized
`routes_order`. -/
def arrangeRoutes (routes : List RoutePoint) (priority : List (String × Int)) :
    List (String × List (String × String)) × List String :=
  let pr := priority.tail
  (pr.map (fun p => (p.1, routeStopsFor routes p.1)), routesOrder pr)

/-! ## Priority buckets (`getOrderedRoutes`, lines 263-290)

The Python loop is `while True` with `priority_num` starting at 1,
incremented once per iteration, and `break` as soon as it equals 20 —
so the loop body runs exactly 19 times on every input.  The loop is
embedded with explicit fuel so that its termination behaviour is itself
a provable statement: fuel 19 is always sufficient. -/

/-- One bucket: the inner `for` loop of `getOrderedRoutes`, appending a
route id whose rank equals `rank` unless it is already in the bucket. -/
def buildBucket (pr : List (String × Int)) (rank : Int) : List String :=
  pr.foldl (fun acc p => if p.2 == rank && !(acc.contains p.1) then acc ++ [p.1] else acc) []

/-- The `while True` loop of `getOrderedRoutes` with explicit fuel:
`none` models the loop still running after the fuel is spent. -/
def golFuel : Nat → List (String × Int) → List (Int × List String) → Int →
    Option (List (Int × List String))
  | 0, _, _, _ => none
  | fuel + 1, pr, acc, priority_num =>
    let acc' := acc ++ [(priority_num, buildBucket pr priority_num)]
    let next := priority_num + 1
    if next == 20 then some acc' else golFuel fuel pr acc' next

/-- `Schedule_Algorithm.getOrderedRoutes`: the bucket dictionary, as the
insertion-ordered association list the Python dict is. -/
def getOrderedRoutes (pr : List (String × Int)) : List (Int × List String) :=
  (golFuel 19 pr [] 1).getD []

/-! ## Trip generation (`generateTrip`, lines 168-186)

`generateTrip` starts from `datetime(2000, 1, 1, hour, minute, 0)` and, for
every stop of the route's stop list in order, first adds
`int(travel_time)` seconds and then records `str(trip_time.time())` —
i.e. the time of day, the absolute seconds taken modulo 86400.  A
non-numeric travel-time cell makes Python's `int` raise, hence `Option`. -/

/-- A trip: the insertion-ordered `stop id → "HH:MM:SS"` dictionary. -/
abbrev Trip := List (String × String)

/-- The propagation loop of `generateTrip`: `cur` is the absolute time in
seconds since the `datetime(2000, 1, 1)` midnight. -/
def gtLoop : List (String × String) → Int → Option Trip
  | [], _ => some []
  | (sid, tts) :: rest, cur =>
    match pyInt tts with
    | none => none
    | some tt =>
      match gtLoop rest (cur + tt) with
      | none => none
      | some tail => some ((sid, timeStr ((cur + tt) % 86400).toNat) :: tail)

/-- `Schedule_Algorithm.generateTrip` restricted to the one dictionary it
builds: the stop-time mapping for the trip starting at
`current_hour:trip_minute:00`. -/
def generateTrip (stops : List (String × String)) (hour minute : Nat) : Option Trip :=
  gtLoop stops ((hour : Int) * 3600 + (minute : Int) * 60)

/-! ## Route schedule generation (`generateRouteSchedule`, lines 124-166) -/

/-- Python's `list.index(x)` as an `Option` (raises `ValueError` when
absent). -/
def pyIndex (l : List String) (x : String) : Option Nat :=
  l.findIdx? (fun e => e == x)

/-- The inner `for trip_minute in freq_minutes` loop: one trip per minute,
incrementing the per-route trip counter and appending
`(route ++ %04d counter, trip)` to the schedule (a fresh dictionary key,
so dict insertion is an append). -/
def emitTrips (stops : List (String × String)) (route : String) (hour : Nat) :
    List Nat → Nat → List (String × Trip) → Option (Nat × List (String × Trip))
  | [], num, acc => some (num, acc)
  | m :: ms, num, acc =>
    match generateTrip stops hour m with
    | none => none
    | some trip => emitTrips stops route hour ms (num + 1) (acc ++ [(route ++ pad4 (num + 1), trip)])

/-- The hour walk of `generateRouteSchedule` (lines 148-166): wraps the
hour at 24, skips `None` frequency hours (`count += 1; continue` — note
the `break` test is skipped on that path, as in the code), and stops
after the `count == 23` test succeeds on a serviced hour. -/
def grsLoop (stops : List (String × String)) (route : String) :
    List String → Nat → Nat → Nat → List (String × Trip) → Option (List (String × Trip))
  | [], _, _, _, acc => some acc
  | f :: rest, hour, count, num, acc =>
    let hour' := if hour == 24 then 0 else hour
    match pyInt f with
    | none => none
    | some fi =>
      match calculateFrequencyMinutes fi 0 with
      | none => grsLoop stops route rest (hour' + 1) (count + 1) num acc
      | some mins =>
        match emitTrips stops route hour' mins num acc with
        | none => none
        | some (num', acc') =>
          if count == 23 then some acc'
          else grsLoop stops route rest (hour' + 1) (count + 1) num' acc'

/-- Hour of day at which scheduling starts (`START_DAY_HOUR`). -/
def START_DAY_HOUR : Nat := 3

/-- `Schedule_Algorithm.generateRouteSchedule`: locate the route's
frequency row, slice it between the `period ++ "00"` and `period ++ "23"`
header markers, rotate it so the day-start hour comes first, and walk it
hour by hour; returns the route's trip dictionary (`none` where Python
raises: missing row/header, non-numeric cell). -/
def generateRouteSchedule (frequency : List (List String))
    (stops : List (String × String)) (route period : String) :
    Option (List (String × Trip)) :=
  match (frequency.map (fun row => row.getD 0 "")).findIdx? (fun r => r == route) with
  | none => none
  | some rowIdx =>
    let row := frequency.getD rowIdx []
    match frequency.getD 0 [] with
    | header =>
      match pyIndex header (period ++ "00"), pyIndex header (period ++ "23") with
      | some hStart, some hFin => 
        let sliced := (row.take (hFin + 1)).drop hStart
        let rotated := sliced.drop START_DAY_HOUR ++ sliced.take START_DAY_HOUR
        grsLoop stops route rotated START_DAY_HOUR 0 0 []
      | _, _ => none

/-! ## Trip time shifting (`shiftTripTime`, lines 203-220) -/

/-- `Schedule_Algorithm.shiftTripTime`: every stop time is parsed with
`strptime("%H:%M:%S")`, shifted by `seconds`, and re-rendered with
`str(.time())` (time of day, i.e. modulo 86400). -/
def shiftTripTime : Trip → Int → Option Trip
  | [], _ => some []
  | (stop, t) :: rest, seconds =>
    match parseTimeStr t, shiftTripTime rest seconds with
    | some s, some rest' =>
      some ((stop, timeStr (((s : Int) + seconds) % 86400).toNat) :: rest')
    | _, _ => none

/-! ## The optimizer surface (`optimizeNodeConnections`,
`minimizeRouteWaitTime`, `shiftHourlyTripTimes`, `evaluateNodeConnections`,
`calculateNodeNumber`; lines 71-122, 188-201, 245-261)

These functions are embedded as explicit state transformers over the
algorithm object's mutable fields.  Each returns the post-state together
with an `Option String` error channel: `some e` models a Python exception
raised at that point (the object keeps whatever state it had, which for
these read-only functions is the entry state). -/

/-- `node.py`'s `Node`: id, name, and the `(route id, stop id)`
memberships. -/
structure Node where
  node_id : String
  node_name : String
  node_stops : List (String × String)
deriving DecidableEq, Repr

/-- The mutable fields of `Schedule_Algorithm` touched by the optimizer. -/
structure ScheduleState where
  routes_stops : List (String × List (String × String))
  routes_schedules : List (String × List (String × Trip))
  priority : List (String × Int)
  nodes : List Node
deriving Repr

/-- `Schedule_Algorithm.evaluateNodeConnections` (lines 71-84).  The loop
body calls `node.evaluateConnectionTime(self.routes_schedules, route=route)`,
but `Node.evaluateConnectionTime(self, trips)` accepts no `route` keyword
— with any node present the first iteration raises `TypeError` (and even
a positional call would return `None`, making the following
`for connection in conn_times` raise).  With no nodes the sum is 0. -/
def evaluateNodeConnections (st : ScheduleState) (route : String) : Option Int :=
  match st.nodes with
  | [] => some 0
  | _ :: _ => none

/-- `Schedule_Algorithm.calculateNodeNumber` (lines 245-261): per route,
the number of its stops that belong to some node's stop memberships. -/
def calculateNodeNumber (st : ScheduleState) : List (String × Nat) :=
  st.routes_stops.map (fun rs =>
    (rs.1, (rs.2.map (fun stop =>
      (st.nodes.filter (fun node =>
        (node.node_stops.map (fun e => e.2)).contains stop.1)).length)).sum))

/-- The per-hour read of `minimizeRouteWaitTime`: parse each trip's first
stop time (`list(trip.values())[0]`, an `IndexError` on an empty trip, a
`ValueError` on an unparsable time) and collect the printed hours. -/
def mrwtHourPass (sched : List (String × Trip)) : Option (List Nat) :=
  sched.foldr (fun tr acc =>
    match acc with
    | none => none
    | some hs =>
      match tr.2.head? with
      | none => none
      | some kv =>
        match parseTimeStr kv.2 with
        | none => none
        | some s => some (s / 3600 :: hs)) (some [])

/-- The 24-iteration hour loop of `minimizeRouteWaitTime` (lines 112-121),
threading `current_hour` with its wrap at 24 exactly as the code does. -/
def mrwtLoop (sched : List (String × Trip)) : Nat → Nat → List Nat → Option (List Nat)
  | 0, _, log => some log
  | i + 1, current_hour, log =>
    let h := if current_hour == 24 then 0 else current_hour
    match mrwtHourPass sched with
    | none => none
    | some hs => mrwtLoop sched i (h + 1) (log ++ hs)

/-- `Schedule_Algorithm.minimizeRouteWaitTime`: reads (and prints) the
start hour of every trip of `route` for each of 24 hour passes; it never
writes any field.  Returns the post-state, the printed hours, and the
error channel. -/
def minimizeRouteWaitTime (st : ScheduleState) (route : String) :
    ScheduleState × List Nat × Option String :=
  match st.routes_schedules.lookup route with
  | none => (st, [], some "KeyError")
  | some sched =>
    match mrwtLoop sched 24 START_DAY_HOUR [] with
    | none => (st, [], some "ValueError")
    | some log => (st, log, none)

/-- `Schedule_Algorithm.shiftHourlyTripTimes` (lines 188-201): the body is
empty — the function performs no mutation and returns `None`; the trips
dictionary it was handed is left exactly as it was. -/
def shiftHourlyTripTimes (trips : List (String × List (String × Trip)))
    (route : String) (hour : Nat) (seconds : Int) :
    List (String × List (String × Trip)) :=
  trips

/-- The `for route in prioritized_routes[priority_category]` inner loop of
`optimizeNodeConnections`: evaluate the route's connections, then call
`minimizeRouteWaitTime`, stopping at the first exception. -/
def oncRoutes : ScheduleState → List String → ScheduleState × Option String
  | st, [] => (st, none)
  | st, r :: rs =>
    match evaluateNodeConnections st r with
    | none => (st, some "TypeError")
    | some _ =>
      match minimizeRouteWaitTime st r with
      | (st', _, some e) => (st', some e)
      | (st', _, none) => oncRoutes st' rs

/-- The outer loop over priority buckets. -/
def oncBuckets : ScheduleState → List (Int × List String) → ScheduleState × Option String
  | st, [] => (st, none)
  | st, b :: bs =>
    match oncRoutes st b.2 with
    | (st', some e) => (st', some e)
    | (st', none) => oncBuckets st' bs

/-- `Schedule_Algorithm.optimizeNodeConnections` (lines 86-102): computes
the node-number metric and the priority buckets, then walks every bucket
in order, evaluating and "minimizing" each route. -/
def optimizeNodeConnections (st : ScheduleState) : ScheduleState × Option String :=
  let route_node_numbers := calculateNodeNumber st
  let prioritized_routes := getOrderedRoutes st.priority
  oncBuckets st prioritized_routes

/-- The bucket association list from rank `pn` for `n` more ranks
(helper for reasoning about the loop). -/
def bucketsFrom (pr : List (String × Int)) : Int → Nat → List (Int × List String)
  | _, 0 => []
  | pn, n + 1 => (pn, buildBucket pr pn) :: bucketsFrom pr (pn + 1) n

/-! ## Helper lemmas: trip time propagation -/

/-- Absolute stop times (seconds since the base midnight) produced by the
propagation loop of `generateTrip`: each stop's time is the running sum of
travel times added to the start time. -/
def absTimes : List Int → Int → List Int
  | [], _ => []
  | t :: ts, cur => (cur + t) :: absTimes ts (cur + t)

/-- Frequency table for the spec's §8 scenario: header of MF-period hour
codes, one route row for route "27" with frequency 30 in hour 3 (the
day-start hour) and the no-service value 0 everywhere else. -/
def scenarioFrequency : List (List String) :=
  [["route",
    "MF00", "MF01", "MF02", "MF03", "MF04", "MF05", "MF06", "MF07", "MF08", "MF09",
    "MF10", "MF11", "MF12", "MF13", "MF14", "MF15", "MF16", "MF17", "MF18", "MF19",
    "MF20", "MF21", "MF22", "MF23"],
   ["27",
    "0", "0", "0", "30", "0", "0", "0", "0", "0", "0",
    "0", "0", "0", "0", "0", "0", "0", "0", "0", "0",
    "0", "0", "0", "0"]]

/-- The indices whose slot still holds a real rank (not the consumed
sentinel 20). -/
def unconsumed (L : List Int) : List Nat :=
  (List.range L.length).filter (fun i => L.getD i 20 != 20)

theorem freqLoopFuel_ge (F : Nat) :
    ∀ (fuel cur : Nat), ∀ v ∈ freqLoopFuel fuel F cur, cur ≤ v := by
  intro fuel
  induction fuel with
  | zero => intro cur v hv; simp [freqLoopFuel] at hv
  | succ n ih =>
    intro cur v hv
    by_cases h : cur < 60
    · simp only [freqLoopFuel, if_pos h, List.mem_cons] at hv
      rcases hv with rfl | hv
      · exact le_refl v
      · exact le_trans (Nat.le_add_right cur F) (ih (cur + F) v hv)
    · simp [freqLoopFuel, if_neg h] at hv

theorem freqLoopFuel_mem (F : Nat) (hF : 1 ≤ F) :
    ∀ (fuel cur : Nat), 60 ≤ fuel + cur →
      ∀ v, v ∈ freqLoopFuel fuel F cur ↔ (∃ k, v = cur + k * F) ∧ v < 60 := by
  intro fuel
  induction fuel with
  | zero =>
    intro cur hcur v
    simp only [freqLoopFuel, List.not_mem_nil, false_iff]
    rintro ⟨⟨k, rfl⟩, hlt⟩
    omega
  | succ n ih =>
    intro cur hcur v
    by_cases h : cur < 60
    · simp only [freqLoopFuel, if_pos h, List.mem_cons]
      rw [ih (cur + F) (by omega) v]
      constructor
      · rintro (rfl | ⟨⟨k, rfl⟩, hlt⟩)
        · exact ⟨⟨0, by ring⟩, h⟩
        · exact ⟨⟨k + 1, by ring⟩, hlt⟩
      · rintro ⟨⟨k, rfl⟩, hlt⟩
        cases k with
        | zero => left; simp
        | succ m => right; exact ⟨⟨m, by ring⟩, hlt⟩
    · simp only [freqLoopFuel, if_neg h, List.not_mem_nil, false_iff]
      rintro ⟨⟨k, rfl⟩, hlt⟩
      omega

theorem freqLoopFuel_sorted (F : Nat) (hF : 1 ≤ F) :
    ∀ (fuel cur : Nat), (freqLoopFuel fuel F cur).Pairwise (· < ·) := by
  intro fuel
  induction fuel with
  | zero => intro cur; simp [freqLoopFuel]
  | succ n ih =>
    intro cur
    by_cases h : cur < 60
    · simp only [freqLoopFuel, if_pos h]
      refine List.pairwise_cons.mpr ⟨fun v hv => ?_, ih (cur + F)⟩
      have := freqLoopFuel_ge F n (cur + F) v hv
      omega
    · simp [freqLoopFuel, if_neg h]

/-! ## Helper lemmas: time rendering round-trips -/

theorem digitVal_digitChar : ∀ d, d < 10 → digitVal (digitChar d) = some d := by decide

/-- Parsing back a canonically rendered time of day recovers its seconds. -/
theorem parseTimeStr_timeStr (s : Nat) (h : s < 86400) : parseTimeStr (timeStr s) = some s := by
  have h1 := digitVal_digitChar (s / 3600 / 10) (by omega)
  have h2 := digitVal_digitChar (s / 3600 % 10) (by omega)
  have h3 := digitVal_digitChar (s % 3600 / 60 / 10) (by omega)
  have h4 := digitVal_digitChar (s % 3600 / 60 % 10) (by omega)
  have h5 := digitVal_digitChar (s % 60 / 10) (by omega)
  have h6 := digitVal_digitChar (s % 60 % 10) (by omega)
  simp only [parseTimeStr, timeStr, timeChars, pad2, List.cons_append, List.nil_append]
  simp only [parseTimeChars, h1, h2, h3, h4, h5, h6]
  simp only [and_self, if_true]
  rw [if_pos (by omega)]
  congr 1
  omega

theorem emod_day_bounds (x : Int) : 0 ≤ x % 86400 ∧ x % 86400 < 86400 :=
  ⟨Int.emod_nonneg x (by norm_num), Int.emod_lt_of_pos x (by norm_num)⟩

/-- Shifting a canonical trip succeeds, stays canonical, and the opposite
shift undoes it. -/
theorem shiftTripTime_inverse (k : Int) :
    ∀ trip : Trip, (∀ p ∈ trip, ∃ s, s < 86400 ∧ p.2 = timeStr s) →
      ∃ trip', shiftTripTime trip k = some trip' ∧
        (∀ q ∈ trip', ∃ s, s < 86400 ∧ q.2 = timeStr s) ∧
        shiftTripTime trip' (-k) = some trip := by
  intro trip
  induction trip with
  | nil => intro _; exact ⟨[], rfl, by simp, rfl⟩
  | cons p rest ih =>
    intro h
    obtain ⟨s, hs, hp2⟩ := h p (List.mem_cons_self p rest)
    obtain ⟨rest', hr1, hr2, hr3⟩ := ih (fun q hq => h q (List.mem_cons_of_mem p hq))
    have hparse : parseTimeStr p.2 = some s := by rw [hp2]; exact parseTimeStr_timeStr s hs
    set t : Int := ((s : Int) + k) % 86400 with ht
    obtain ⟨htn, htl⟩ := emod_day_bounds ((s : Int) + k)
    have ht2 : t.toNat < 86400 := by omega
    refine ⟨(p.1, timeStr t.toNat) :: rest', ?_, ?_, ?_⟩
    · show shiftTripTime (p :: rest) k = _
      cases p with
      | mk stop tv =>
        simp only [shiftTripTime]
        rw [show parseTimeStr tv = some s from hparse, hr1]
    · intro q hq
      rcases List.mem_cons.mp hq with rfl | hq'
      · exact ⟨t.toNat, ht2, rfl⟩
      · exact hr2 q hq'
    · simp only [shiftTripTime]
      rw [parseTimeStr_timeStr t.toNat ht2, hr3]
      have harith : (((t.toNat : Int)) + (-k)) % 86400 = (s : Int) := by
        have h1 : ((t.toNat : Int)) = t := Int.toNat_of_nonneg htn
        rw [h1, ht]
        have h2 : (((s : Int) + k) % 86400 + -k) % 86400
            = ((s : Int) + k + -k) % 86400 := by
          rw [Int.add_emod, Int.emod_emod_of_dvd _ (dvd_refl 86400), ← Int.add_emod]
        rw [h2]
        have h3 : (s : Int) + k + -k = (s : Int) := by ring
        rw [h3]
        exact Int.emod_eq_of_lt (by positivity) (by exact_mod_cast hs)
      show some ((p.1, timeStr (((t.toNat : Int) + -k) % 86400).toNat) :: rest) = some (p :: rest)
      rw [harith]
      have hfix : ((s : Int)).toNat = s := Int.toNat_natCast s
      rw [hfix, ← hp2]

/-! ## Helper lemmas: priority buckets -/

theorem golFuel_succ (fuel : Nat) (pr : List (String × Int))
    (acc : List (Int × List String)) (pn : Int) :
    golFuel (fuel + 1) pr acc pn =
      if pn + 1 == 20 then some (acc ++ [(pn, buildBucket pr pn)])
      else golFuel fuel pr (acc ++ [(pn, buildBucket pr pn)]) (pn + 1) := rfl

/-- The bucket loop finishes exactly when the fuel counts the remaining
`priority_num` values up to the break at 20, whatever the table holds. -/
theorem golFuel_complete (pr : List (String × Int)) :
    ∀ (n : Nat) (pn : Int) (acc : List (Int × List String)), 1 ≤ n → pn + n = 20 →
      golFuel n pr acc pn = some (acc ++ bucketsFrom pr pn n) := by
  intro n
  induction n with
  | zero => intro pn acc h1 _; omega
  | succ m ih =>
    intro pn acc _ h20
    rw [golFuel_succ]
    by_cases hm : m = 0
    · subst hm
      have hpn : pn = 19 := by omega
      subst hpn
      norm_num [bucketsFrom]
    · have hne : ¬(pn + 1 == 20) = true := by
        have : pn + 1 ≠ 20 := by omega
        simpa using this
      rw [if_neg hne, ih (pn + 1) (acc ++ [(pn, buildBucket pr pn)]) (by omega) (by push_cast; omega)]
      simp [bucketsFrom]

/-- `getOrderedRoutes` in closed form: buckets 1 through 19 in order. -/
theorem getOrderedRoutes_eq (pr : List (String × Int)) :
    getOrderedRoutes pr = bucketsFrom pr 1 19 := by
  unfold getOrderedRoutes
  rw [golFuel_complete pr 19 1 [] (by norm_num) (by norm_num)]
  simp

/-- Membership in the bucket list. -/
theorem bucketsFrom_mem (pr : List (String × Int)) :
    ∀ (n : Nat) (pn : Int) (r : Int) (b : List String),
      ((r, b) ∈ bucketsFrom pr pn n ↔ ∃ k : Nat, k < n ∧ r = pn + k ∧ b = buildBucket pr r) := by
  intro n
  induction n with
  | zero => intro pn r b; simp [bucketsFrom]
  | succ m ih =>
    intro pn r b
    simp only [bucketsFrom, List.mem_cons, ih (pn + 1) r b, Prod.mk.injEq]
    constructor
    · rintro (⟨rfl, rfl⟩ | ⟨k, hk, rfl, rfl⟩)
      · exact ⟨0, by omega, by simp, rfl⟩
      · exact ⟨k + 1, by omega, by push_cast; ring, rfl⟩
    · rintro ⟨k, hk, rfl, rfl⟩
      cases k with
      | zero => left; constructor <;> simp
      | succ j =>
        right
        exact ⟨j, by omega, by push_cast; ring, rfl⟩

/-- Membership in a bucket: exactly the route ids the table assigns that
rank (whatever their multiplicity). -/
theorem buildBucket_mem (pr : List (String × Int)) (rank : Int) (x : String) :
    x ∈ buildBucket pr rank ↔ ∃ p ∈ pr, p.1 = x ∧ p.2 = rank := by
  have haux : ∀ (l : List (String × Int)) (acc : List String),
      x ∈ l.foldl (fun acc p => if p.2 == rank && !(acc.contains p.1)
          then acc ++ [p.1] else acc) acc
        ↔ x ∈ acc ∨ ∃ p ∈ l, p.1 = x ∧ p.2 = rank := by
    intro l
    induction l with
    | nil => intro acc; simp
    | cons p t ih =>
      intro acc
      rw [List.foldl_cons]
      by_cases hcond : (p.2 == rank && !(acc.contains p.1)) = true
      · rw [if_pos hcond, ih]
        simp only [Bool.and_eq_true, beq_iff_eq, Bool.not_eq_true'] at hcond
        simp only [List.mem_append, List.mem_cons, List.not_mem_nil, or_false]
        constructor
        · rintro ((hx | rfl) | ⟨q, hq, h1, h2⟩)
          · exact Or.inl hx
          · exact Or.inr ⟨p, Or.inl rfl, rfl, hcond.1⟩
          · exact Or.inr ⟨q, Or.inr hq, h1, h2⟩
        · rintro (hx | ⟨q, (rfl | hq), h1, h2⟩)
          · exact Or.inl (Or.inl hx)
          · exact Or.inl (Or.inr h1.symm)
          · exact Or.inr ⟨q, hq, h1, h2⟩
      · rw [if_neg hcond, ih]
        simp only [Bool.and_eq_true, beq_iff_eq, Bool.not_eq_true',
          Bool.not_eq_false, not_and] at hcond
        simp only [List.mem_cons]
        constructor
        · rintro (hx | ⟨q, hq, h1, h2⟩)
          · exact Or.inl hx
          · exact Or.inr ⟨q, Or.inr hq, h1, h2⟩
        · rintro (hx | ⟨q, (rfl | hq), h1, h2⟩)
          · exact Or.inl hx
          · have hmem : q.1 ∈ acc := by
              have := hcond h2
              simpa using this
            exact Or.inl (h1 ▸ hmem)
          · exact Or.inr ⟨q, hq, h1, h2⟩
  rw [buildBucket, haux]
  simp

/-- Each bucket is duplicate-free. -/
theorem buildBucket_nodup (pr : List (String × Int)) (rank : Int) :
    (buildBucket pr rank).Nodup := by
  have haux : ∀ (l : List (String × Int)) (acc : List String), acc.Nodup →
      (l.foldl (fun acc p => if p.2 == rank && !(acc.contains p.1)
          then acc ++ [p.1] else acc) acc).Nodup := by
    intro l
    induction l with
    | nil => intro acc h; simpa using h
    | cons p t ih =>
      intro acc hacc
      rw [List.foldl_cons]
      by_cases hcond : (p.2 == rank && !(acc.contains p.1)) = true
      · rw [if_pos hcond]
        refine ih _ ?_
        simp only [Bool.and_eq_true, Bool.not_eq_true'] at hcond
        have hnm : p.1 ∉ acc := by
          have := hcond.2
          simpa using this
        simp [List.nodup_append, hacc, hnm]
      · rw [if_neg hcond]
        exact ih _ hacc
  exact haux pr [] List.nodup_nil

/-! ## Helper lemmas: `arrangeRoutes` stop lists -/

theorem freqLoopFuel_succ (fuel F cur : Nat) :
    freqLoopFuel (fuel + 1) F cur =
      if cur < 60 then cur :: freqLoopFuel fuel F (cur + F) else [] := rfl

/-- Looking a priority route up in the stop-list association table built by
`arrangeRoutes` returns that route's filtered stop list. -/
theorem lookup_stop_table (f : String → List (String × String)) :
    ∀ (pr : List (String × Int)) (p : String × Int), p ∈ pr →
      List.lookup p.1 (pr.map (fun q => (q.1, f q.1))) = some (f p.1) := by
  intro pr
  induction pr with
  | nil => intro p hp; simp at hp
  | cons q t ih =>
    intro p hp
    rw [List.map_cons]
    by_cases h : p.1 = q.1
    · simp [List.lookup, h]
    · have hne : (p.1 == q.1) = false := by simpa using h
      rcases List.mem_cons.mp hp with rfl | hp'
      · exact absurd rfl h
      · simp only [List.lookup, hne]
        exact ih p hp'

/-! ## Claim theorems -/

/-- C1 (corrected): for every route id taken from the (header-stripped)
priority table, the stop list built by `arrangeRoutes` consists of exactly
the route-table rows for that route whose STOP-ID field (index 4) is
non-blank, projected to (stop id, travel time) pairs in table order; rows
with a blank stop id are the ones excluded.  (The original claim said the
filter was on the travel-time field, index 5.) -/
theorem claim_C1 (routes : List RoutePoint) (priority : List (String × Int))
    (p : String × Int) (hp : p ∈ priority.tail) :
    List.lookup p.1 (arrangeRoutes routes priority).1 =
      some ((routes.filter (fun rp => rp.col0 == p.1 && rp.col4 != "")).map
        (fun rp => (rp.col4, rp.col5))) := by
  unfold arrangeRoutes
  exact lookup_stop_table (routeStopsFor routes) priority.tail p hp

/-- Witness for C1 at a concrete table: the row with a blank stop id is
dropped, the others are kept in table order. -/
theorem claim_C1_witness :
    List.lookup "R"
        (arrangeRoutes
          [⟨"R", "", "", "", "A", ""⟩, ⟨"R", "", "", "", "", "50"⟩,
           ⟨"R", "", "", "", "B", "120"⟩, ⟨"Q", "", "", "", "C", "60"⟩]
          [("header", 0), ("R", 1)]).1 =
      some [("A", ""), ("B", "120")] := by
  have h := claim_C1
    [⟨"R", "", "", "", "A", ""⟩, ⟨"R", "", "", "", "", "50"⟩,
     ⟨"R", "", "", "", "B", "120"⟩, ⟨"Q", "", "", "", "C", "60"⟩]
    [("header", 0), ("R", 1)] ("R", 1) (by decide)
  rw [h]
  decide

/-- Counterexample to C1 as stated: a row with a non-blank stop id and a
BLANK travel-time field is kept by the code (the filter reads index 4,
not index 5), while the claim says every blank-travel-time row is
excluded (the spec-faithful `routeStopsSpecC1` would drop it). -/
theorem claim_C1_counterexample :
    List.lookup "R" (arrangeRoutes [⟨"R", "", "", "", "A", ""⟩] [("header", 0), ("R", 1)]).1
        = some [("A", "")]
    ∧ routeStopsSpecC1 [⟨"R", "", "", "", "A", ""⟩] "R" = []
    ∧ some [("A", "")] ≠ some ([] : List (String × String)) := by decide

/-- C2 (corrected): the `while True` loop of `getOrderedRoutes` terminates
after exactly 19 iterations on EVERY priority table — also on one whose
rank lies outside [1,19]; an out-of-range rank is silently dropped from
all buckets, it does not make the construction loop indefinitely. -/
theorem claim_C2 (pr : List (String × Int)) :
    golFuel 19 pr [] 1 = some (bucketsFrom pr 1 19) :=
  golFuel_complete pr 19 1 [] (by norm_num) (by norm_num)

/-- Counterexample to C2 as stated: on a table whose only rank is 25
(outside [1,19]) the construction still terminates within fuel 19,
returning the 19 buckets, all empty. -/
theorem claim_C2_counterexample :
    ¬(1 ≤ (25 : Int) ∧ (25 : Int) ≤ 19)
    ∧ golFuel 19 [("X", 25)] [] 1 = some
      [(1, []), (2, []), (3, []), (4, []), (5, []), (6, []), (7, []), (8, []), (9, []),
       (10, []), (11, []), (12, []), (13, []), (14, []), (15, []), (16, []), (17, []),
       (18, []), (19, [])] := by decide

/-- C3 (confirmed): `calculateFrequencyMinutes` returns the no-service
sentinel exactly when the frequency is outside [1,60]; otherwise it
returns the strictly increasing list of all values `S, S+F, S+2F, ...`
below 60; with the spec's concrete cases, and `S ≥ 60` giving `[]`. -/
theorem claim_C3 (F : Int) (S : Nat) :
    (¬(1 ≤ F ∧ F ≤ 60) → calculateFrequencyMinutes F S = none)
    ∧ ((1 ≤ F ∧ F ≤ 60) →
        ∃ l, calculateFrequencyMinutes F S = some l
          ∧ (∀ v, v ∈ l ↔ (∃ k : Nat, (v : Int) = S + k * F) ∧ v < 60)
          ∧ l.Pairwise (· < ·))
    ∧ calculateFrequencyMinutes 15 0 = some [0, 15, 30, 45]
    ∧ calculateFrequencyMinutes 60 0 = some [0]
    ∧ calculateFrequencyMinutes 61 0 = none
    ∧ calculateFrequencyMinutes 0 0 = none
    ∧ (1 ≤ F → F ≤ 60 → 60 ≤ S → calculateFrequencyMinutes F S = some []) := by
  refine ⟨?_, ?_, by decide, by decide, by decide, by decide, ?_⟩
  · intro h
    unfold calculateFrequencyMinutes
    rw [if_pos (by omega)]
  · rintro ⟨h1, h60⟩
    have hFnat : ((F.toNat : Int)) = F := Int.toNat_of_nonneg (by omega)
    have hF1 : 1 ≤ F.toNat := by omega
    unfold calculateFrequencyMinutes
    rw [if_neg (by omega)]
    refine ⟨_, rfl, ?_, freqLoopFuel_sorted F.toNat hF1 60 S⟩
    intro v
    rw [freqLoopFuel_mem F.toNat hF1 60 S (by omega) v]
    constructor
    · rintro ⟨⟨k, rfl⟩, hlt⟩
      refine ⟨⟨k, ?_⟩, hlt⟩
      push_cast
      rw [hFnat]
    · rintro ⟨⟨k, hk⟩, hlt⟩
      refine ⟨⟨k, ?_⟩, hlt⟩
      rw [← hFnat] at hk
      exact_mod_cast hk
  · intro h1 h60 hS
    unfold calculateFrequencyMinutes
    rw [if_neg (by omega)]
    rw [show (60 : Nat) = 59 + 1 from rfl, freqLoopFuel_succ, if_neg (by omega)]

/-- Witness for C3 at frequency 7: the expansion is the arithmetic
progression of step 7 below 60. -/
theorem claim_C3_witness :
    ∃ l, calculateFrequencyMinutes 7 0 = some l
      ∧ (∀ v, v ∈ l ↔ (∃ k : Nat, (v : Int) = (0 : Nat) + k * 7) ∧ v < 60)
      ∧ l.Pairwise (· < ·) :=
  (claim_C3 7 0).2.1 (by norm_num)

/-- C6 (confirmed): shifting every stop time of a trip of canonical
`HH:MM:SS` strings forward 90 seconds and then back 90 seconds
reproduces the trip exactly, also across the midnight wrap. -/
theorem claim_C6 (trip : Trip) (hcanon : ∀ p ∈ trip, ∃ s, s < 86400 ∧ p.2 = timeStr s) :
    (shiftTripTime trip 90).bind (fun t => shiftTripTime t (-90)) = some trip := by
  obtain ⟨trip', h1, _, h3⟩ := shiftTripTime_inverse 90 trip hcanon
  rw [h1]
  simpa using h3

/-- Witness for C6: a stop 30 seconds before midnight crosses the day
boundary forward and comes back unchanged. -/
theorem claim_C6_witness :
    (shiftTripTime [("A", "23:59:30")] 90).bind (fun t => shiftTripTime t (-90))
      = some [("A", "23:59:30")] := by
  apply claim_C6
  intro p hp
  rw [List.mem_singleton] at hp
  subst hp
  exact ⟨86370, by norm_num, by decide⟩

/-- C8 (corrected): the concrete bucket example; every rank key 1..19 is
present; each bucket is duplicate-free; and a route id lies in at most
one bucket PROVIDED the table gives each route id a single rank (the
unrestricted claim fails: a route id listed under two in-range ranks is
placed in both buckets, see the counterexample). -/
theorem claim_C8 :
    getOrderedRoutes [("10", 1), ("11", 1), ("12", 3)] =
      [(1, ["10", "11"]), (2, []), (3, ["12"]), (4, []), (5, []), (6, []), (7, []),
       (8, []), (9, []), (10, []), (11, []), (12, []), (13, []), (14, []), (15, []),
       (16, []), (17, []), (18, []), (19, [])]
    ∧ (∀ (pr : List (String × Int)) (r : Int), 1 ≤ r → r ≤ 19 →
        ∃ b, (r, b) ∈ getOrderedRoutes pr)
    ∧ (∀ (pr : List (String × Int)) (r : Int) (b : List String),
        (r, b) ∈ getOrderedRoutes pr → b.Nodup)
    ∧ (∀ pr : List (String × Int), (∀ p ∈ pr, ∀ q ∈ pr, p.1 = q.1 → p.2 = q.2) →
        ∀ (x : String) (r r' : Int) (b b' : List String),
          (r, b) ∈ getOrderedRoutes pr → (r', b') ∈ getOrderedRoutes pr →
          x ∈ b → x ∈ b' → r = r') := by
  refine ⟨by decide, ?_, ?_, ?_⟩
  · intro pr r h1 h19
    refine ⟨buildBucket pr r, ?_⟩
    rw [getOrderedRoutes_eq, bucketsFrom_mem]
    exact ⟨(r - 1).toNat, by omega, by omega, rfl⟩
  · intro pr r b hb
    rw [getOrderedRoutes_eq, bucketsFrom_mem] at hb
    obtain ⟨k, _, _, rfl⟩ := hb
    exact buildBucket_nodup pr r
  · intro pr hsingle x r r' b b' hb hb' hx hx'
    rw [getOrderedRoutes_eq, bucketsFrom_mem] at hb hb'
    obtain ⟨k, _, _, rfl⟩ := hb
    obtain ⟨k', _, _, rfl⟩ := hb'
    rw [buildBucket_mem] at hx hx'
    obtain ⟨p, hp, hp1, hp2⟩ := hx
    obtain ⟨q, hq, hq1, hq2⟩ := hx'
    rw [← hp2, ← hq2]
    exact hsingle p hp q hq (hp1.trans hq1.symm)

/-- Witness for C8: every rank key in range is present for a concrete
one-row table. -/
theorem claim_C8_witness :
    ∃ b, ((5 : Int), b) ∈ getOrderedRoutes [("A", 5)] :=
  claim_C8.2.1 [("A", 5)] 5 (by norm_num) (by norm_num)

/-- Counterexample to C8 as stated: a route id holding two distinct
in-range ranks appears in both corresponding buckets, so "each route id
appears in at most one bucket" fails on the code. -/
theorem claim_C8_counterexample :
    ((1 : Int), ["X"]) ∈ getOrderedRoutes [("X", 1), ("X", 2)]
    ∧ ((2 : Int), ["X"]) ∈ getOrderedRoutes [("X", 1), ("X", 2)]
    ∧ (1 : Int) ≠ 2 := by decide

/-! ## Helper lemmas: the optimizer writes nothing -/

/-- `minimizeRouteWaitTime` returns the state it was given (it only reads
and prints), whether it succeeds or raises. -/
theorem minimizeRouteWaitTime_fst (st : ScheduleState) (route : String) :
    (minimizeRouteWaitTime st route).1 = st := by
  unfold minimizeRouteWaitTime
  split
  · rfl
  · split <;> rfl

theorem oncRoutes_fst : ∀ (rs : List String) (st : ScheduleState), (oncRoutes st rs).1 = st := by
  intro rs
  induction rs with
  | nil => intro st; rfl
  | cons r t ih =>
    intro st
    unfold oncRoutes
    cases evaluateNodeConnections st r with
    | none => rfl
    | some v =>
      have hm := minimizeRouteWaitTime_fst st r
      rcases hmr : minimizeRouteWaitTime st r with ⟨st', log, err⟩
      rw [hmr] at hm
      simp only at hm
      cases err with
      | none =>
        show (oncRoutes st' t).1 = st
        rw [ih st']
        exact hm
      | some e =>
        show st' = st
        exact hm

theorem oncBuckets_fst : ∀ (bs : List (Int × List String)) (st : ScheduleState),
    (oncBuckets st bs).1 = st := by
  intro bs
  induction bs with
  | nil => intro st; rfl
  | cons b t ih =>
    intro st
    unfold oncBuckets
    have hr := oncRoutes_fst b.2 st
    rcases hb : oncRoutes st b.2 with ⟨st', err⟩
    rw [hb] at hr
    simp only at hr
    cases err with
    | none =>
      show (oncBuckets st' t).1 = st
      rw [ih st']
      exact hr
    | some e =>
      show st' = st
      exact hr

/-- C10 (confirmed): `optimizeNodeConnections` — and with it
`minimizeRouteWaitTime` — leaves `routes_schedules` entirely unchanged
(in fact the whole state), and `shiftHourlyTripTimes`, whose body is
empty, returns the trips dictionary exactly as given. -/
theorem claim_C10 :
    (∀ st : ScheduleState, (optimizeNodeConnections st).1.routes_schedules = st.routes_schedules)
    ∧ (∀ (st : ScheduleState) (route : String),
        (minimizeRouteWaitTime st route).1.routes_schedules = st.routes_schedules)
    ∧ (∀ (trips : List (String × List (String × Trip))) (route : String) (hour : Nat)
        (seconds : Int), shiftHourlyTripTimes trips route hour seconds = trips) := by
  refine ⟨?_, ?_, ?_⟩
  · intro st
    unfold optimizeNodeConnections
    rw [oncBuckets_fst]
  · intro st route
    rw [minimizeRouteWaitTime_fst]
  · intro trips route hour seconds
    rfl

theorem gtLoop_spec : ∀ (stops : List (String × String)) (tts : List Int) (cur : Int),
    stops.map (fun p => pyInt p.2) = tts.map some →
    ∃ trip, gtLoop stops cur = some trip ∧
      trip.map (fun q => q.2) = (absTimes tts cur).map (fun a => timeStr ((a % 86400).toNat)) ∧
      trip.map (fun q => q.1) = stops.map (fun p => p.1) := by
  intro stops
  induction stops with
  | nil =>
    intro tts cur hp
    cases tts with
    | nil => exact ⟨[], rfl, rfl, rfl⟩
    | cons t ts => simp at hp
  | cons p rest ih =>
    intro tts cur hp
    cases tts with
    | nil => simp at hp
    | cons t ts =>
      rw [List.map_cons, List.map_cons] at hp
      have hph : pyInt p.2 = some t := (List.cons.injEq _ _ _ _ ▸ hp).1
      have hpt : rest.map (fun p => pyInt p.2) = ts.map some := (List.cons.injEq _ _ _ _ ▸ hp).2
      obtain ⟨tail, htail, hv, hn⟩ := ih ts (cur + t) hpt
      refine ⟨(p.1, timeStr (((cur + t) % 86400).toNat)) :: tail, ?_, ?_, ?_⟩
      · cases p with
        | mk sid tc =>
          simp only [gtLoop, hph, htail]
      · simp only [absTimes, List.map_cons, hv]
      · simp only [List.map_cons, hn]

theorem absTimes_ge : ∀ (tts : List Int) (cur : Int), (∀ t ∈ tts, 0 ≤ t) →
    ∀ a ∈ absTimes tts cur, cur ≤ a := by
  intro tts
  induction tts with
  | nil => intro cur _ a ha; simp [absTimes] at ha
  | cons t ts ih =>
    intro cur hnn a ha
    rcases List.mem_cons.mp ha with rfl | ha'
    · have := hnn t (List.mem_cons_self t ts)
      omega
    · have h1 := ih (cur + t) (fun u hu => hnn u (List.mem_cons_of_mem t hu)) a ha'
      have := hnn t (List.mem_cons_self t ts)
      omega

theorem absTimes_le : ∀ (tts : List Int) (cur : Int), (∀ t ∈ tts, 0 ≤ t) →
    ∀ a ∈ absTimes tts cur, a ≤ cur + tts.sum := by
  intro tts
  induction tts with
  | nil => intro cur _ a ha; simp [absTimes] at ha
  | cons t ts ih =>
    intro cur hnn a ha
    have hsum : (∀ u ∈ ts, (0:Int) ≤ u) → 0 ≤ ts.sum := fun h => List.sum_nonneg h
    rcases List.mem_cons.mp ha with rfl | ha'
    · have := hsum (fun u hu => hnn u (List.mem_cons_of_mem t hu))
      rw [List.sum_cons]
      omega
    · have h1 := ih (cur + t) (fun u hu => hnn u (List.mem_cons_of_mem t hu)) a ha'
      rw [List.sum_cons]
      omega

theorem absTimes_chain : ∀ (tts : List Int) (cur : Int), (∀ t ∈ tts, 0 ≤ t) →
    List.Chain' (· ≤ ·) (absTimes tts cur) := by
  intro tts
  induction tts with
  | nil => intro cur _; simp [absTimes]
  | cons t ts ih =>
    intro cur hnn
    simp only [absTimes]
    rw [List.chain'_cons']
    refine ⟨?_, ih (cur + t) (fun u hu => hnn u (List.mem_cons_of_mem t hu))⟩
    intro y hy
    cases ts with
    | nil => simp [absTimes] at hy
    | cons u us =>
      simp only [absTimes, List.head?_cons, Option.mem_def, Option.some.injEq] at hy
      have := hnn u (List.mem_cons_of_mem t (List.mem_cons_self u us))
      omega

theorem absTimes_getLast : ∀ (tts : List Int) (cur : Int), tts ≠ [] →
    (absTimes tts cur).getLast? = some (cur + tts.sum) := by
  intro tts
  induction tts with
  | nil => intro cur h; exact absurd rfl h
  | cons t ts ih =>
    intro cur _
    cases ts with
    | nil => simp [absTimes]
    | cons u us =>
      have h1 := ih (cur + t) (by simp)
      simp only [absTimes] at h1 ⊢
      rw [List.getLast?_cons_cons, h1]
      congr 1
      simp only [List.sum_cons]
      ring

/-- C5 (corrected): for a trip generated from non-negative integer travel
times that does NOT cross midnight (start time plus total travel below
86400 s), the recorded timestamps are non-decreasing in stop order and
the final stop's time is the first stop's time plus the sum of the travel
times propagated after the first stop.  (Unrestricted, the claim fails:
times are recorded as time of day, so a trip crossing midnight wraps —
see the counterexample.) -/
theorem claim_C5 (stops : List (String × String)) (tts : List Int) (hour minute : Nat)
    (hparse : stops.map (fun p => pyInt p.2) = tts.map some)
    (hnn : ∀ t ∈ tts, 0 ≤ t)
    (hday : (hour : Int) * 3600 + minute * 60 + tts.sum < 86400) :
    ∃ trip, generateTrip stops hour minute = some trip ∧
      ∃ secs : List Nat,
        trip.map (fun q => parseTimeStr q.2) = secs.map some ∧
        secs.Chain' (· ≤ ·) ∧
        ∀ s0 sl, secs.head? = some s0 → secs.getLast? = some sl →
          (sl : Int) = s0 + tts.tail.sum := by
  set base : Int := (hour : Int) * 3600 + minute * 60 with hbase
  have hbase0 : (0 : Int) ≤ base := by omega
  obtain ⟨trip, htrip, hv, _⟩ := gtLoop_spec stops tts base hparse
  have hsum0 : (0 : Int) ≤ tts.sum := List.sum_nonneg hnn
  have hbd : ∀ a ∈ absTimes tts base, 0 ≤ a ∧ a < 86400 := by
    intro a ha
    have hge := absTimes_ge tts _ hnn a ha
    have hle := absTimes_le tts _ hnn a ha
    constructor <;> omega
  refine ⟨trip, htrip, (absTimes tts base).map Int.toNat, ?_, ?_, ?_⟩
  · have hvv : trip.map (fun q => parseTimeStr q.2)
        = (absTimes tts base).map (fun a => parseTimeStr (timeStr ((a % 86400).toNat))) := by
      have hcongr := congrArg (List.map parseTimeStr) hv
      simpa [List.map_map, Function.comp] using hcongr
    rw [hvv, List.map_map]
    apply List.map_congr_left
    intro a ha
    obtain ⟨h0, h86⟩ := hbd a ha
    have hm : a % 86400 = a := Int.emod_eq_of_lt h0 h86
    show parseTimeStr (timeStr ((a % 86400).toNat)) = some a.toNat
    rw [hm]
    exact parseTimeStr_timeStr a.toNat (by omega)
  · rw [List.chain'_map]
    exact (absTimes_chain tts _ hnn).imp (fun a b hab => by omega)
  · intro s0 sl h0 hl
    cases tts with
    | nil =>
      simp [absTimes] at h0
    | cons t ts =>
      have ht0 : (0 : Int) ≤ t := hnn t (List.mem_cons_self t ts)
      have hts : (0 : Int) ≤ ts.sum :=
        List.sum_nonneg (fun u hu => hnn u (List.mem_cons_of_mem t hu))
      have hhead : ((absTimes (t :: ts) base).map Int.toNat).head? = some ((base + t).toNat) := by
        simp [absTimes]
      have hlast : ((absTimes (t :: ts) base).map Int.toNat).getLast?
          = some ((base + (t :: ts).sum).toNat) := by
        rw [List.getLast?_map, absTimes_getLast (t :: ts) _ (by simp)]
        rfl
      rw [hhead] at h0
      rw [hlast] at hl
      have hs0 : s0 = (base + t).toNat := (Option.some.injEq _ _ ▸ h0).symm
      have hsl : sl = (base + (t :: ts).sum).toNat := (Option.some.injEq _ _ ▸ hl).symm
      rw [List.sum_cons] at hsl hday
      simp only [List.tail_cons]
      omega

/-- Witness for C5: the scenario stop list at 03:00 stays within the day
and satisfies the amended invariant. -/
theorem claim_C5_witness :
    ∃ trip, generateTrip [("A", "0"), ("B", "120"), ("C", "90")] 3 0 = some trip ∧
      ∃ secs : List Nat,
        trip.map (fun q => parseTimeStr q.2) = secs.map some ∧
        secs.Chain' (· ≤ ·) ∧
        ∀ s0 sl, secs.head? = some s0 → secs.getLast? = some sl →
          (sl : Int) = s0 + ([(0 : Int), 120, 90].tail).sum :=
  claim_C5 [("A", "0"), ("B", "120"), ("C", "90")] [0, 120, 90] 3 0
    (by decide) (by decide) (by decide)

/-- Counterexample to C5 as stated: with non-negative travel times but a
start near midnight, the recorded time-of-day values wrap and decrease
(23:00:00 is followed by 01:00:00). -/
theorem claim_C5_counterexample :
    generateTrip [("A", "0"), ("B", "7200")] 23 0 = some [("A", "23:00:00"), ("B", "01:00:00")]
    ∧ pyInt "0" = some 0 ∧ pyInt "7200" = some 7200
    ∧ (0 : Int) ≤ 0 ∧ (0 : Int) ≤ 7200
    ∧ parseTimeStr "23:00:00" = some 82800
    ∧ parseTimeStr "01:00:00" = some 3600
    ∧ ¬(82800 ≤ 3600) := by decide

/-- C7 (corrected): the scenario's full schedule.  The first generated
trip has trip id "270001" (route id ++ 4-digit counter) — not
"2700010003" — and stop times A=03:00:00, B=03:02:00, C=03:03:30. -/
theorem claim_C7 :
    generateRouteSchedule scenarioFrequency [("A", "0"), ("B", "120"), ("C", "90")] "27" "MF"
      = some [("270001", [("A", "03:00:00"), ("B", "03:02:00"), ("C", "03:03:30")]),
              ("270002", [("A", "03:30:00"), ("B", "03:32:00"), ("C", "03:33:30")])] := by
  decide

/-- Counterexample to C7 as stated: the first trip id the code produces
for the scenario is "270001", not "2700010003". -/
theorem claim_C7_counterexample :
    (generateRouteSchedule scenarioFrequency [("A", "0"), ("B", "120"), ("C", "90")] "27" "MF").map
        (fun sched => sched.head?.map Prod.fst)
      = some (some "270001")
    ∧ some (some "270001") ≠ some (some "2700010003") := by decide

/-! ## Helper lemmas: trip id strings -/

theorem digitChar_lt : ∀ a, a < 10 → ∀ b, b < 10 → a < b → digitChar a < digitChar b := by decide

/-- Lexicographic comparison of two four-digit renderings follows the
numeric order. -/
theorem fourDigit_lex (i j : Nat) (hij : i < j) (hj : j < 10000) :
    List.Lex (· < ·)
      [digitChar (i / 1000), digitChar (i / 100 % 10), digitChar (i / 10 % 10), digitChar (i % 10)]
      [digitChar (j / 1000), digitChar (j / 100 % 10), digitChar (j / 10 % 10), digitChar (j % 10)] := by
  rcases Nat.lt_trichotomy (i / 1000) (j / 1000) with h3 | h3 | h3
  · exact List.Lex.rel (digitChar_lt _ (by omega) _ (by omega) h3)
  · rw [h3]
    apply List.Lex.cons
    rcases Nat.lt_trichotomy (i / 100 % 10) (j / 100 % 10) with h2 | h2 | h2
    · exact List.Lex.rel (digitChar_lt _ (by omega) _ (by omega) h2)
    · rw [h2]
      apply List.Lex.cons
      rcases Nat.lt_trichotomy (i / 10 % 10) (j / 10 % 10) with h1 | h1 | h1
      · exact List.Lex.rel (digitChar_lt _ (by omega) _ (by omega) h1)
      · rw [h1]
        apply List.Lex.cons
        exact List.Lex.rel (digitChar_lt _ (by omega) _ (by omega) (by omega))
      · omega
    · omega
  · omega

theorem lex_append_same (p : List Char) :
    ∀ as bs : List Char, List.Lex (· < ·) as bs → List.Lex (· < ·) (p ++ as) (p ++ bs) := by
  induction p with
  | nil => intro as bs h; simpa using h
  | cons c t ih => intro as bs h; exact List.Lex.cons (ih as bs h)

/-- Trip ids with larger counters are strictly larger strings (while the
counter stays below 10000, i.e. four digits). -/
theorem tripId_lt (route : String) (i j : Nat) (hij : i < j) (hj : j < 10000) :
    route ++ pad4 i < route ++ pad4 j := by
  rw [String.lt_iff_toList_lt]
  have hi : i < 10000 := by omega
  have hdi : (route ++ pad4 i).toList = route.data ++
      [digitChar (i / 1000), digitChar (i / 100 % 10), digitChar (i / 10 % 10), digitChar (i % 10)] := by
    rw [show (route ++ pad4 i).toList = route.data ++ (pad4 i).data from String.data_append ..]
    rw [pad4, if_pos hi]
  have hdj : (route ++ pad4 j).toList = route.data ++
      [digitChar (j / 1000), digitChar (j / 100 % 10), digitChar (j / 10 % 10), digitChar (j % 10)] := by
    rw [show (route ++ pad4 j).toList = route.data ++ (pad4 j).data from String.data_append ..]
    rw [pad4, if_pos hj]
  rw [hdi, hdj]
  exact lex_append_same route.data _ _ (fourDigit_lex i j hij hj)

theorem freqLoopFuel_length (F : Nat) :
    ∀ (fuel cur : Nat), (freqLoopFuel fuel F cur).length ≤ fuel := by
  intro fuel
  induction fuel with
  | zero => intro cur; simp [freqLoopFuel]
  | succ n ih =>
    intro cur
    by_cases h : cur < 60
    · rw [freqLoopFuel_succ, if_pos h]
      simpa using ih (cur + F)
    · rw [freqLoopFuel_succ, if_neg h]
      simp

theorem calculateFrequencyMinutes_length (F : Int) (S : Nat) (l : List Nat)
    (h : calculateFrequencyMinutes F S = some l) : l.length ≤ 60 := by
  unfold calculateFrequencyMinutes at h
  by_cases hc : F > 60 ∨ F < 1
  · rw [if_pos hc] at h; cases h
  · rw [if_neg hc] at h
    cases h
    exact freqLoopFuel_length F.toNat 60 S

/-- Concatenating two consecutive runs of counter-derived ids is one run. -/
theorem range_ids_append (g : Nat → String) (num a b : Nat) :
    (List.range a).map (fun i => g (num + i + 1))
      ++ (List.range b).map (fun i => g (num + a + i + 1))
      = (List.range (a + b)).map (fun i => g (num + i + 1)) := by
  rw [List.range_add, List.map_append, List.map_map]
  congr 1
  apply List.map_congr_left
  intro i _
  show g (num + a + i + 1) = g (num + (a + i) + 1)
  congr 1
  omega

/-- The inner minute loop: the counter advances by one per trip, and the
emitted ids are the consecutive counter values rendered with `pad4`. -/
theorem emitTrips_spec (stops : List (String × String)) (route : String) (hour : Nat) :
    ∀ (mins : List Nat) (num : Nat) (acc : List (String × Trip)) (r : Nat × List (String × Trip)),
      emitTrips stops route hour mins num acc = some r →
      r.1 = num + mins.length ∧
      r.2.map Prod.fst = acc.map Prod.fst
        ++ (List.range mins.length).map (fun i => route ++ pad4 (num + i + 1)) := by
  intro mins
  induction mins with
  | nil =>
    intro num acc r hr
    cases hr
    simp
  | cons m ms ih =>
    intro num acc r hr
    simp only [emitTrips] at hr
    cases hgen : generateTrip stops hour m with
    | none => rw [hgen] at hr; cases hr
    | some trip =>
      rw [hgen] at hr
      obtain ⟨h1, h2⟩ := ih (num + 1) (acc ++ [(route ++ pad4 (num + 1), trip)]) r hr
      constructor
      · rw [h1, List.length_cons]
        omega
      · rw [h2, List.map_append]
        simp only [List.map_cons, List.map_nil, List.length_cons]
        rw [List.append_assoc]
        congr 1
        have hone : ([route ++ pad4 (num + 1)] : List String)
            = (List.range 1).map (fun i => route ++ pad4 (num + i + 1)) := by
          rfl
        have happ := range_ids_append (fun n => route ++ pad4 n) num 1 ms.length
        rw [hone, happ, Nat.add_comm 1 ms.length]

/-- The hour walk emits consecutive counter-derived trip ids, at most 60
per processed hour. -/
theorem grsLoop_ids (stops : List (String × String)) (route : String) :
    ∀ (freqs : List String), ∀ (hour count num : Nat),
      ∀ (acc out : List (String × Trip)),
      grsLoop stops route freqs hour count num acc = some out →
      ∃ n, n ≤ 60 * freqs.length ∧
        out.map Prod.fst = acc.map Prod.fst
          ++ (List.range n).map (fun i => route ++ pad4 (num + i + 1)) := by
  intro freqs
  induction freqs with
  | nil =>
    intro hour count num acc out hr
    cases hr
    exact ⟨0, by simp, by simp⟩
  | cons f rest ih =>
    intro hour count num acc out hr
    simp only [grsLoop] at hr
    cases hpy : pyInt f with
    | none => simp only [hpy] at hr; cases hr
    | some fi =>
      simp only [hpy] at hr
      cases hcf : calculateFrequencyMinutes fi 0 with
      | none =>
        simp only [hcf] at hr
        obtain ⟨n, hn, hout⟩ := ih _ _ _ _ _ hr
        refine ⟨n, ?_, hout⟩
        simp only [List.length_cons]
        omega
      | some mins =>
        simp only [hcf] at hr
        have hlen : mins.length ≤ 60 := calculateFrequencyMinutes_length fi 0 mins hcf
        cases hem : emitTrips stops route (if hour == 24 then 0 else hour) mins num acc with
        | none => simp only [hem] at hr; cases hr
        | some r =>
          rcases r with ⟨num', acc'⟩
          simp only [hem] at hr
          obtain ⟨hr1, hr2⟩ := emitTrips_spec stops route _ mins num acc _ hem
          simp only at hr1 hr2
          subst hr1
          by_cases hcount : (count == 23) = true
          · rw [if_pos hcount] at hr
            cases hr
            refine ⟨mins.length, ?_, ?_⟩
            · simp only [List.length_cons]
              omega
            · exact hr2
          · rw [if_neg hcount] at hr
            obtain ⟨n, hn, hout⟩ := ih _ _ _ _ _ hr
            refine ⟨mins.length + n, ?_, ?_⟩
            · simp only [List.length_cons]
              omega
            · rw [hout, hr2, List.append_assoc,
                range_ids_append (fun k => route ++ pad4 k) num mins.length n]

/-- C9 (confirmed): whenever `generateRouteSchedule` succeeds and the
period's header markers span at most 24 hour columns (the data model's
shape: `period ++ "00"` through `period ++ "23"`), the trip ids of the
produced schedule are exactly `route ++ pad4 k` for the consecutive
counters `k = 1..N` with `N ≤ 1440`, hence 4-digit zero-padded, strictly
increasing as strings in generation order, and pairwise distinct. -/
theorem claim_C9 (frequency : List (List String)) (stops : List (String × String))
    (route period : String) (sched : List (String × Trip))
    (hrun : generateRouteSchedule frequency stops route period = some sched)
    (hStart hFin : Nat)
    (hs : pyIndex (frequency.getD 0 []) (period ++ "00") = some hStart)
    (hf : pyIndex (frequency.getD 0 []) (period ++ "23") = some hFin)
    (hspan : hFin ≤ hStart + 23) :
    ∃ N, N ≤ 1440 ∧
      sched.map Prod.fst = (List.range N).map (fun i => route ++ pad4 (i + 1))
      ∧ (sched.map Prod.fst).Pairwise (· < ·)
      ∧ (sched.map Prod.fst).Nodup := by
  unfold generateRouteSchedule at hrun
  cases hidx : (frequency.map (fun row => row.getD 0 "")).findIdx? (fun r => r == route) with
  | none => simp only [hidx] at hrun; cases hrun
  | some rowIdx =>
    simp only [hidx, hs, hf] at hrun
    obtain ⟨n, hn, hout⟩ := grsLoop_ids stops route _ _ _ _ _ _ hrun
    have hids : sched.map Prod.fst = (List.range n).map (fun i => route ++ pad4 (i + 1)) := by
      simpa using hout
    have hb : n ≤ 1440 := by
      have h1 := List.length_take (hFin + 1) (frequency.getD rowIdx [])
      have h2 := List.length_drop hStart ((frequency.getD rowIdx []).take (hFin + 1))
      have h3 := List.length_append
        ((((frequency.getD rowIdx []).take (hFin + 1)).drop hStart).drop START_DAY_HOUR)
        ((((frequency.getD rowIdx []).take (hFin + 1)).drop hStart).take START_DAY_HOUR)
      have h4 := List.length_drop START_DAY_HOUR
        (((frequency.getD rowIdx []).take (hFin + 1)).drop hStart)
      have h5 := List.length_take START_DAY_HOUR
        (((frequency.getD rowIdx []).take (hFin + 1)).drop hStart)
      rw [h3, h4, h5] at hn
      omega
    have hpair : (sched.map Prod.fst).Pairwise (· < ·) := by
      rw [hids, List.pairwise_map]
      refine List.Pairwise.imp_of_mem ?_ (List.pairwise_lt_range n)
      intro i j hi hj hij
      rw [List.mem_range] at hj
      exact tripId_lt route (i + 1) (j + 1) (by omega) (by omega)
    exact ⟨n, hb, hids, hpair, hpair.imp (fun hab => ne_of_lt hab)⟩

/-- Witness for C9 on the §8 scenario table: the hypotheses hold
concretely and the schedule's ids obey the invariant. -/
theorem claim_C9_witness :
    ∃ N, N ≤ 1440 ∧
      ([("270001", [("A", "03:00:00"), ("B", "03:02:00"), ("C", "03:03:30")]),
        ("270002", [("A", "03:30:00"), ("B", "03:32:00"), ("C", "03:33:30")])].map Prod.fst
        : List String)
        = (List.range N).map (fun i => "27" ++ pad4 (i + 1))
      ∧ (([("270001", [("A", "03:00:00"), ("B", "03:02:00"), ("C", "03:03:30")]),
          ("270002", [("A", "03:30:00"), ("B", "03:32:00"), ("C", "03:33:30")])].map Prod.fst
          : List String)).Pairwise (· < ·)
      ∧ (([("270001", [("A", "03:00:00"), ("B", "03:02:00"), ("C", "03:03:30")]),
          ("270002", [("A", "03:30:00"), ("B", "03:32:00"), ("C", "03:33:30")])].map Prod.fst
          : List String)).Nodup :=
  claim_C9 scenarioFrequency [("A", "0"), ("B", "120"), ("C", "90")] "27" "MF"
    [("270001", [("A", "03:00:00"), ("B", "03:02:00"), ("C", "03:03:30")]),
     ("270002", [("A", "03:30:00"), ("B", "03:32:00"), ("C", "03:33:30")])]
    (by decide) 1 24 (by decide) (by decide) (by decide)

/-! ## Helper lemmas: the `routes_order` selection loop -/

theorem listMin_le : ∀ (l : List Int), ∀ x ∈ l, listMin l ≤ x := by
  intro l
  induction l with
  | nil => intro x hx; simp at hx
  | cons a t ih =>
    intro x hx
    cases t with
    | nil =>
      rw [List.mem_singleton] at hx
      subst hx
      exact le_refl x
    | cons b u =>
      rcases List.mem_cons.mp hx with rfl | hx'
      · exact min_le_left _ _
      · exact le_trans (min_le_right _ _) (ih x hx')

theorem listMin_mem : ∀ (l : List Int), l ≠ [] → listMin l ∈ l := by
  intro l
  induction l with
  | nil => intro h; exact absurd rfl h
  | cons a t ih =>
    intro _
    cases t with
    | nil => simp [listMin]
    | cons b u =>
      show min a (listMin (b :: u)) ∈ a :: b :: u
      rcases min_choice a (listMin (b :: u)) with h | h
      · rw [h]; exact List.mem_cons_self a (b :: u)
      · rw [h]; exact List.mem_cons_of_mem a (ih (by simp))

theorem listIndexOf_spec (v : Int) :
    ∀ (l : List Int), v ∈ l →
      listIndexOf v l < l.length ∧
      l.getD (listIndexOf v l) 20 = v ∧
      ∀ i < listIndexOf v l, l.getD i 20 ≠ v := by
  intro l
  induction l with
  | nil => intro hv; simp at hv
  | cons a t ih =>
    intro hv
    by_cases h : a = v
    · refine ⟨?_, ?_, ?_⟩ <;> simp [listIndexOf, h]
    · have hv' : v ∈ t := by
        rcases List.mem_cons.mp hv with rfl | hv'
        · exact absurd rfl h
        · exact hv'
      obtain ⟨h1, h2, h3⟩ := ih hv'
      have hidx : listIndexOf v (a :: t) = listIndexOf v t + 1 := by
        simp [listIndexOf, h]
      refine ⟨?_, ?_, ?_⟩
      · rw [hidx, List.length_cons]; omega
      · rw [hidx]
        simpa using h2
      · intro i hi
        rw [hidx] at hi
        cases i with
        | zero => simpa using h
        | succ m =>
          have hm : m < listIndexOf v t := by omega
          simpa using h3 m hm

theorem mem_unconsumed (L : List Int) (i : Nat) :
    i ∈ unconsumed L ↔ i < L.length ∧ L.getD i 20 ≠ 20 := by
  unfold unconsumed
  rw [List.mem_filter, List.mem_range]
  simp

theorem filter_pred_flip :
    ∀ (l : List Nat), l.Nodup → ∀ (j : Nat) (p q : Nat → Bool),
      (∀ x ∈ l, x ≠ j → q x = p x) → p j = true → q j = false →
      l.filter q = (l.filter p).erase j := by
  intro l
  induction l with
  | nil => intro _ j p q _ _ _; rfl
  | cons a t ih =>
    intro hnd j p q hagree hpj hqj
    have hand := List.nodup_cons.mp hnd
    by_cases haj : a = j
    · subst haj
      rw [List.filter_cons_of_neg (by simp [hqj]), List.filter_cons_of_pos hpj,
        List.erase_cons_head]
      apply List.filter_congr
      intro x hx
      exact hagree x (List.mem_cons_of_mem a hx) (fun hxj => hand.1 (hxj ▸ hx))
    · have hqa : q a = p a := hagree a (List.mem_cons_self a t) haj
      have hrec := ih hand.2 j p q
        (fun x hx hxj => hagree x (List.mem_cons_of_mem a hx) hxj) hpj hqj
      cases hpa : p a with
      | true =>
        rw [List.filter_cons_of_pos (by rw [hqa, hpa]), List.filter_cons_of_pos hpa,
          List.erase_cons_tail (by simpa using haj), hrec]
      | false =>
        rw [List.filter_cons_of_neg (by simp [hqa, hpa]), List.filter_cons_of_neg (by simp [hpa])]
        exact hrec

theorem unconsumed_set (L : List Int) (j : Nat) (hj : j < L.length)
    (hne : L.getD j 20 ≠ 20) :
    unconsumed (L.set j 20) = (unconsumed L).erase j := by
  unfold unconsumed
  rw [List.length_set]
  apply filter_pred_flip (List.range L.length) (List.nodup_range L.length) j
  · intro x hx hxj
    rw [List.mem_range] at hx
    have h1 : (L.set j 20).getD x 20 = L.getD x 20 := by
      rw [List.getD_eq_getElem?_getD, List.getD_eq_getElem?_getD, List.getElem?_set_ne (fun h => hxj h.symm)]
    rw [h1]
  · simpa using hne
  · have h2 : (L.set j 20)[j]?.getD 20 = 20 := by
      rw [List.getElem?_set_self (by omega)]
      simp
    simp [List.getD_eq_getElem?_getD, h2]

/-- Invariant of the `routes_order` selection loop: run for as many steps
as there are unconsumed slots, it emits the route ids of a sequence of
distinct indices — a permutation of the unconsumed positions — ordered by
(rank, position) lexicographically. -/
theorem selectLoop_spec (pr : List (String × Int)) :
    ∀ (n : Nat) (L : List Int), L.length = pr.length →
      (∀ x ∈ L, (1 ≤ x ∧ x ≤ 19) ∨ x = 20) →
      n = (unconsumed L).length →
      ∃ idxs : List Nat,
        selectLoop pr n L = idxs.map (fun i => (pr.getD i ("", 0)).1) ∧
        idxs.Perm (unconsumed L) ∧
        idxs.Pairwise (fun i j => L.getD i 20 < L.getD j 20 ∨
          (L.getD i 20 = L.getD j 20 ∧ i < j)) := by
  intro n
  induction n with
  | zero =>
    intro L hlen hvals hn
    have hempty : unconsumed L = [] := List.length_eq_zero.mp hn.symm
    exact ⟨[], rfl, by rw [hempty], List.Pairwise.nil⟩
  | succ m ih =>
    intro L hlen hvals hn
    have hne : unconsumed L ≠ [] := by
      intro h; rw [h] at hn; simp at hn
    obtain ⟨i0, hi0⟩ := List.exists_mem_of_ne_nil _ hne
    rw [mem_unconsumed] at hi0
    have hLne : L ≠ [] := by
      intro h; rw [h] at hi0; simp at hi0
    have hmn_mem : listMin L ∈ L := listMin_mem L hLne
    have hi0_mem : L.getD i0 20 ∈ L := by
      rw [List.getD_eq_getElem L 20 hi0.1]
      exact List.getElem_mem _
    have hi0_le : L.getD i0 20 ≤ 19 := by
      rcases hvals _ hi0_mem with h | h
      · exact h.2
      · exact absurd h hi0.2
    have hmn19 : listMin L ≤ 19 := le_trans (listMin_le L _ hi0_mem) hi0_le
    have hmn_ne20 : listMin L ≠ 20 := by omega
    obtain ⟨hjlt, hjval, hjfirst⟩ := listIndexOf_spec (listMin L) L hmn_mem
    have hj_unc : listIndexOf (listMin L) L ∈ unconsumed L := by
      rw [mem_unconsumed]
      exact ⟨hjlt, by rw [hjval]; exact hmn_ne20⟩
    set j := listIndexOf (listMin L) L with hjdef
    have hset_len : (L.set j 20).length = pr.length := by
      rw [List.length_set]; exact hlen
    have hset_vals : ∀ x ∈ L.set j 20, (1 ≤ x ∧ x ≤ 19) ∨ x = 20 := by
      intro x hx
      rcases List.mem_or_eq_of_mem_set hx with hx' | rfl
      · exact hvals x hx'
      · exact Or.inr rfl
    have hunc' : unconsumed (L.set j 20) = (unconsumed L).erase j :=
      unconsumed_set L j hjlt (by rw [hjval]; exact hmn_ne20)
    have hm_len : m = (unconsumed (L.set j 20)).length := by
      rw [hunc', List.length_erase_of_mem hj_unc, ← hn]
      omega
    obtain ⟨idxs', hsel', hperm', hpair'⟩ := ih (L.set j 20) hset_len hset_vals hm_len
    have hnodupL : (unconsumed L).Nodup := (List.nodup_range _).filter _
    have hidx_mem : ∀ i ∈ idxs', i ∈ (unconsumed L).erase j := by
      intro i hi
      rw [← hunc']
      exact (hperm'.mem_iff).mp hi
    have hidx_props : ∀ i ∈ idxs',
        i < L.length ∧ (L.set j 20).getD i 20 = L.getD i 20 ∧ L.getD i 20 ≠ 20 ∧ i ≠ j := by
      intro i hi
      have hne_ij : i ≠ j := ((hnodupL.mem_erase_iff).mp (hidx_mem i hi)).1
      have h2 : i ∈ unconsumed L := ((hnodupL.mem_erase_iff).mp (hidx_mem i hi)).2
      rw [mem_unconsumed] at h2
      refine ⟨h2.1, ?_, h2.2, hne_ij⟩
      rw [List.getD_eq_getElem?_getD, List.getD_eq_getElem?_getD,
        List.getElem?_set_ne (fun h => hne_ij h.symm)]
    refine ⟨j :: idxs', ?_, ?_, ?_⟩
    · show (pr.getD j ("", 0)).1 :: selectLoop pr m (L.set j 20)
        = (j :: idxs').map (fun i => (pr.getD i ("", 0)).1)
      rw [List.map_cons, ← hsel']
    · rw [hunc'] at hperm'
      exact (hperm'.cons j).trans (List.perm_cons_erase hj_unc).symm
    · rw [List.pairwise_cons]
      constructor
      · intro i hi
        obtain ⟨hilt, _, hine, hne_ij⟩ := hidx_props i hi
        have hmem_i : L.getD i 20 ∈ L := by
          rw [List.getD_eq_getElem L 20 hilt]
          exact List.getElem_mem _
        have hge : listMin L ≤ L.getD i 20 := listMin_le L _ hmem_i
        rw [hjval]
        rcases lt_or_eq_of_le hge with hlt | heq2
        · exact Or.inl hlt
        · right
          refine ⟨heq2, ?_⟩
          by_cases hij : i < j
          · exact absurd heq2.symm (hjfirst i hij)
          · omega
      · refine hpair'.imp_of_mem ?_
        intro a b ha hb hrel
        obtain ⟨_, heqa, _, _⟩ := hidx_props a ha
        obtain ⟨_, heqb, _, _⟩ := hidx_props b hb
        rwa [heqa, heqb] at hrel

/-- C4 (confirmed): with every rank in [1,19], `routes_order` picks each
priority row exactly once — it is `pr.map Prod.fst` up to permutation,
given by a permutation `idxs` of the row positions that is sorted by
ascending rank with ties broken by original table order. -/
theorem claim_C4 (pr : List (String × Int)) (hrank : ∀ p ∈ pr, 1 ≤ p.2 ∧ p.2 ≤ 19) :
    ∃ idxs : List Nat,
      routesOrder pr = idxs.map (fun i => (pr.getD i ("", 0)).1) ∧
      idxs.Perm (List.range pr.length) ∧
      (routesOrder pr).Perm (pr.map Prod.fst) ∧
      idxs.Pairwise (fun i j =>
        (pr.getD i ("", 0)).2 < (pr.getD j ("", 0)).2 ∨
        ((pr.getD i ("", 0)).2 = (pr.getD j ("", 0)).2 ∧ i < j)) := by
  set L : List Int := pr.map (fun p => p.2) with hL
  have hlen : L.length = pr.length := by rw [hL, List.length_map]
  have hvals : ∀ x ∈ L, (1 ≤ x ∧ x ≤ 19) ∨ x = 20 := by
    intro x hx
    rw [hL, List.mem_map] at hx
    obtain ⟨p, hp, rfl⟩ := hx
    exact Or.inl (hrank p hp)
  have hgetD : ∀ i, i < pr.length → L.getD i 20 = (pr.getD i ("", 0)).2 := by
    intro i hi
    rw [List.getD_eq_getElem L 20 (by omega), List.getD_eq_getElem pr ("", 0) hi]
    exact List.getElem_map _
  have hunc_all : unconsumed L = List.range pr.length := by
    unfold unconsumed
    rw [hlen]
    apply List.filter_eq_self.mpr
    intro i hi
    rw [List.mem_range] at hi
    have hQ := hgetD i hi
    have hmem : pr.getD i ("", 0) ∈ pr := by
      rw [List.getD_eq_getElem pr ("", 0) hi]
      exact List.getElem_mem _
    have hR := hrank _ hmem
    simp only [bne_iff_ne, ne_eq, decide_eq_true_eq]
    omega
  obtain ⟨idxs, hsel, hperm, hpair⟩ := selectLoop_spec pr pr.length L hlen hvals
    (by rw [hunc_all, List.length_range])
  have hperm2 : idxs.Perm (List.range pr.length) := by rwa [hunc_all] at hperm
  have hro : routesOrder pr = idxs.map (fun i => (pr.getD i ("", 0)).1) := hsel
  refine ⟨idxs, hro, hperm2, ?_, ?_⟩
  · rw [hro]
    have h1 := hperm2.map (fun i => (pr.getD i ("", 0)).1)
    have h2 : (List.range pr.length).map (fun i => (pr.getD i ("", 0)).1)
        = pr.map Prod.fst := by
      apply List.ext_getElem
      · simp
      · intro n h1' h2'
        rw [List.getElem_map, List.getElem_map, List.getElem_range]
        rw [List.getD_eq_getElem pr ("", 0) (by simpa using h2')]
    rw [h2] at h1
    exact h1
  · refine hpair.imp_of_mem ?_
    intro a b ha hb hrel
    have haB : a < pr.length := by
      have := (hperm2.mem_iff).mp ha
      rwa [List.mem_range] at this
    have hbB : b < pr.length := by
      have := (hperm2.mem_iff).mp hb
      rwa [List.mem_range] at this
    rwa [hgetD a haB, hgetD b hbB] at hrel

/-- Witness for C4: a table with a duplicate rank — the stable order is
A, C (tie broken by position), then B. -/
theorem claim_C4_witness :
    ∃ idxs : List Nat,
      routesOrder [("B", 2), ("A", 1), ("C", 1)]
        = idxs.map (fun i => (([("B", 2), ("A", 1), ("C", 1)] : List (String × Int)).getD i ("", 0)).1) ∧
      idxs.Perm (List.range ([("B", 2), ("A", 1), ("C", 1)] : List (String × Int)).length) ∧
      (routesOrder [("B", 2), ("A", 1), ("C", 1)]).Perm
        (([("B", 2), ("A", 1), ("C", 1)] : List (String × Int)).map Prod.fst) ∧
      idxs.Pairwise (fun i j =>
        (([("B", 2), ("A", 1), ("C", 1)] : List (String × Int)).getD i ("", 0)).2
            < (([("B", 2), ("A", 1), ("C", 1)] : List (String × Int)).getD j ("", 0)).2 ∨
        ((([("B", 2), ("A", 1), ("C", 1)] : List (String × Int)).getD i ("", 0)).2
            = (([("B", 2), ("A", 1), ("C", 1)] : List (String × Int)).getD j ("", 0)).2 ∧ i < j)) :=
  claim_C4 [("B", 2), ("A", 1), ("C", 1)] (by decide)
